import Mathlib

/-!
# golinter command-line front end (`golinter/golinter.go`)

A shallow embedding of the command `golinter`: target classification in `main`,
`lintDir`, `lintPackage`, `lintImportedPackage`, `lintFiles`, and the exit status.

The process state touched by the program (the global `suggestions`, the two
output streams) is threaded explicitly as a `State`.  The counter is a Go `int`,
taken with 64 bits: `suggestions++` wraps around at `maxInt64`.  The collaborators the
program calls but does not define (the filesystem, `go/build`, the analyzer
`lint.Linter.LintFiles`, `filepath.Join`, and the helpers `allPackagesInFS` and
`importPaths`) are the fields of an `Env`; the general theorems hold for every `Env`.
-/

set_option autoImplicit false

namespace Golinter

/-! ## Data model -/

/-- A Go `float64` as far as comparison is concerned: not-a-number, the two
infinities, and the finite values (both zeros are `finite 0`). -/
inductive Float64 where
  | nan
  | negInf
  | finite (q : ℚ)
  | posInf
  deriving DecidableEq

namespace Float64

/-- Go `a >= b` on `float64`: false as soon as one operand is not-a-number. -/
def ge : Float64 → Float64 → Bool
  | nan, _ => false
  | _, nan => false
  | posInf, _ => true
  | _, negInf => true
  | negInf, _ => false
  | _, posInf => false
  | finite a, finite b => decide (b ≤ a)

/-- Go `a == b` on `float64`: not-a-number equals nothing, itself included. -/
def eq : Float64 → Float64 → Bool
  | nan, _ => false
  | _, nan => false
  | negInf, negInf => true
  | posInf, posInf => true
  | finite a, finite b => decide (a = b)
  | _, _ => false

/-- Go `a < b` on `float64`: false as soon as one operand is not-a-number. -/
def lt : Float64 → Float64 → Bool
  | nan, _ => false
  | _, nan => false
  | _, negInf => false
  | negInf, _ => true
  | posInf, _ => false
  | _, posInf => true
  | finite a, finite b => decide (a < b)

end Float64

/-- The content of a file, `[]byte`. -/
abbrev Bytes := List (Fin 256)

/-- The `map[string][]byte` handed to the analyzer: an association list whose keys
are pairwise different (kept so by `FileMap.set`). -/
abbrev FileMap := List (String × Bytes)

namespace FileMap

/-- The assignment `files[k] = v`: overwrite the entry of `k`, or add one. -/
def set : FileMap → String → Bytes → FileMap
  | [], k, v => [(k, v)]
  | (k', v') :: rest, k, v =>
    if k' = k then (k, v) :: rest else (k', v') :: set rest k v

/-- The lookup `files[k]`. -/
def get? : FileMap → String → Option Bytes
  | [], _ => none
  | (k', v') :: rest, k => if k' = k then some v' else get? rest k

/-- The key set of the map. -/
def keys (m : FileMap) : List String := m.map Prod.fst

end FileMap

/-- The command-line flags, after `flag.Parse()`. -/
structure Flags where
  /-- The default is the `float64` nearest to 0.8. -/
  minConfidence : Float64 := Float64.finite (mkRat 3602879701896397 4503599627370496)
  setExitStatus : Bool := false
  exported : Bool := true
  packageComments : Bool := true
  imports : Bool := true
  blankImports : Bool := true
  names : Bool := true
  varDecls : Bool := true
  elses : Bool := true
  ranges : Bool := true
  errorf : Bool := true
  errors : Bool := true
  errorStrings : Bool := true
  receiverNames : Bool := true
  incDec : Bool := true
  errorReturn : Bool := true
  unexportedReturn : Bool := true
  timeNames : Bool := true
  contextKeyTypes : Bool := true
  contextArgs : Bool := true

/-- The configuration `lint.Linter` built by `lintFiles`. -/
structure Linter where
  LintExported : Bool
  LintPackageComments : Bool
  LintImports : Bool
  LintBlankImports : Bool
  LintNames : Bool
  LintVarDecls : Bool
  LintElses : Bool
  LintRanges : Bool
  LintErrorf : Bool
  LintErrors : Bool
  LintErrorStrings : Bool
  LintReceiverNames : Bool
  LintIncDec : Bool
  LintErrorReturn : Bool
  LintUnexportedReturn : Bool
  LintTimeNames : Bool
  LintContextKeyTypes : Bool
  LintContextArgs : Bool
  deriving DecidableEq

/-- A `token.Position`. -/
structure Position where
  Filename : String
  Offset : Int
  Line : Int
  Column : Int
  deriving DecidableEq

/-- A `lint.Problem`, with the fields `lintFiles` reads. -/
structure Problem where
  Position : Position
  Text : String
  Confidence : Float64
  deriving DecidableEq

/-- The part of a `build.Package` that the program reads, and `XTestGoFiles`,
which it leaves aside. -/
structure Package where
  Dir : String
  GoFiles : List String
  CgoFiles : List String
  TestGoFiles : List String
  XTestGoFiles : List String
  deriving DecidableEq

/-- The errors of `build.Import` and `build.ImportDir`, by dynamic type:
`*build.NoGoError`, or anything else (with its `Error()` text). -/
inductive BuildError where
  | noGo (dir : String)
  | other (msg : String)
  deriving DecidableEq

/-- The `os.FileInfo` of a successful `os.Stat`, as far as `isDir` reads it. -/
structure FileInfo where
  IsDir : Bool
  deriving DecidableEq

/-- The collaborators of the program.  `allPackagesInFS` and `importPaths` are
functions of the repository that are not in `golinter.go`; they are taken as
parameters, as are the standard library and the analyzer. -/
structure Env where
  /-- The value `os.Args[0]`. -/
  arg0 : String
  /-- What `flag.PrintDefaults()` writes. -/
  printDefaults : List String
  /-- The call `os.Stat(name)`; `none` when it returns an error. -/
  stat : String → Option FileInfo
  /-- The call `ioutil.ReadFile(name)`; the error is given by its text. -/
  readFile : String → Except String Bytes
  /-- The call `build.ImportDir(dir, 0)`. -/
  importDir : String → Except BuildError Package
  /-- The call `build.Import(path, srcDir, 0)`. -/
  importPkg : String → String → Except BuildError Package
  /-- The call `filepath.Join(dir, f)`. -/
  join : String → String → String
  /-- The call `l.LintFiles(files)` of the analyzer; the error is given by its text. -/
  analyzer : Linter → FileMap → Except String (List Problem)
  /-- The rendering of a `token.Position` under the verb `%v`. -/
  positionString : Position → String
  /-- The expansion of a directory argument that ends in `/...`. -/
  allPackagesInFS : String → List String
  /-- The expansion of the package arguments. -/
  importPaths : List String → List String

/-- The calls that the theorems count: `usage()`, the two entry points of the
package resolver that `lintDir` and `lintPackage` use, and the analyzer. -/
inductive Event where
  | usage
  | importDir (dir : String)
  | importPkg (path srcDir : String)
  | analyzer (l : Linter) (files : FileMap)
  deriving DecidableEq

/-- The least value of Go's `int`, on a platform where `int` has 64 bits. -/
def minInt64 : Int := -9223372036854775808

/-- The greatest value of Go's `int`, on a platform where `int` has 64 bits. -/
def maxInt64 : Int := 9223372036854775807

/-- The value an integer takes in a Go `int` of 64 bits: two's complement
wrap-around into the range from `minInt64` to `maxInt64`. -/
def wrapInt64 (x : Int) : Int :=
  (x + 9223372036854775808) % 18446744073709551616 - 9223372036854775808

/-- The statement `suggestions++` on the `int` counter: it wraps on overflow. -/
def incSuggestions (c : Int) : Int := wrapInt64 (c + 1)

/-- The mutable state of the process: the global `suggestions` (a Go `int`, whose
value lies between `minInt64` and `maxInt64`), what has been written to the two
streams (one entry per write), and the log of calls. -/
structure State where
  suggestions : Int
  stdout : List String
  stderr : List String
  events : List Event
  deriving DecidableEq

/-- The state at process start. -/
def State.init : State := ⟨0, [], [], []⟩

/-- The end of the process: the final state and the exit code. -/
structure Result where
  state : State
  exitCode : Nat
  deriving DecidableEq

/-! ## The program -/

/-- The text written by `usage()`. -/
def usageText (env : Env) : List String :=
  ["Usage of " ++ env.arg0 ++ ":\n",
   "\tgolint [flags] # runs on package in current directory\n",
   "\tgolint [flags] [packages]\n",
   "\tgolint [flags] [directories] # where a '/...' suffix includes all sub-directories\n",
   "\tgolint [flags] [files] # all must belong to a single package\n",
   "Flags:\n"] ++ env.printDefaults

/-- The function `usage`. -/
def usage (env : Env) (s : State) : State :=
  { s with stderr := s.stderr ++ usageText env, events := s.events ++ [Event.usage] }

/-- The function `isDir`. -/
def isDir (env : Env) (filename : String) : Bool :=
  match env.stat filename with
  | some fi => fi.IsDir
  | none => false

/-- The function `exists`. -/
def «exists» (env : Env) (filename : String) : Bool :=
  match env.stat filename with
  | some _ => true
  | none => false

/-- The call `strings.HasSuffix(s, suffix)`. -/
def HasSuffix (s suffix : String) : Bool :=
  suffix.data.isSuffixOf s.data

/-- The slice `arg[:len(arg)-len("/...")]`, taken when `arg` ends in `/...`. -/
def trimMarker (arg : String) : String :=
  String.mk (arg.data.take (arg.data.length - "/...".data.length))

/-- The linter configuration built in `lintFiles` from the flags. -/
def Flags.linter (fl : Flags) : Linter :=
  { LintExported := fl.exported
    LintPackageComments := fl.packageComments
    LintImports := fl.imports
    LintBlankImports := fl.blankImports
    LintNames := fl.names
    LintVarDecls := fl.varDecls
    LintElses := fl.elses
    LintRanges := fl.ranges
    LintErrorf := fl.errorf
    LintErrors := fl.errors
    LintErrorStrings := fl.errorStrings
    LintReceiverNames := fl.receiverNames
    LintIncDec := fl.incDec
    LintErrorReturn := fl.errorReturn
    LintUnexportedReturn := fl.unexportedReturn
    LintTimeNames := fl.timeNames
    LintContextKeyTypes := fl.contextKeyTypes
    LintContextArgs := fl.contextArgs }

/-- The first loop of `lintFiles`: read each file, report a failed read on the
error stream and go on, store a successful one in the map. -/
def readFiles (env : Env) : List String → FileMap × List String → FileMap × List String
  | [], acc => acc
  | filename :: rest, (files, errs) =>
    match env.readFile filename with
    | .error err => readFiles env rest (files, errs ++ [err ++ "\n"])
    | .ok src => readFiles env rest (files.set filename src, errs)

/-- The line `fmt.Printf("%v: %s\n", p.Position, p.Text)`. -/
def problemLine (env : Env) (p : Problem) : String :=
  env.positionString p.Position ++ ": " ++ p.Text ++ "\n"

/-- The second loop of `lintFiles`: print a problem and count it when its
confidence is at least the threshold. -/
def report (env : Env) (fl : Flags) : List Problem → State → State
  | [], s => s
  | p :: ps, s =>
    if Float64.ge p.Confidence fl.minConfidence then
      report env fl ps
        { s with stdout := s.stdout ++ [problemLine env p],
                 suggestions := incSuggestions s.suggestions }
    else report env fl ps s

/-- The function `lintFiles`. -/
def lintFiles (env : Env) (fl : Flags) (filenames : List String) (s : State) : State :=
  let r := readFiles env filenames ([], s.stderr)
  let files := r.1
  let l := fl.linter
  let s1 : State := { s with stderr := r.2, events := s.events ++ [Event.analyzer l files] }
  match env.analyzer l files with
  | .error err => { s1 with stderr := s1.stderr ++ [err ++ "\n"] }
  | .ok ps => report env fl ps s1

/-- The loop `for i, f := range files` with body `files[i] = filepath.Join(pkg.Dir, f)`,
from index `i` on with `n` indices left. -/
def joinFrom (env : Env) (dir : String) : Nat → Nat → List String → List String
  | 0, _, files => files
  | n + 1, i, files =>
    match files.get? i with
    | some f => joinFrom env dir n (i + 1) (files.set i (env.join dir f))
    | none => files

/-- The function `lintImportedPackage`. -/
def lintImportedPackage (env : Env) (fl : Flags) (r : Except BuildError Package)
    (s : State) : State :=
  match r with
  | .error (.noGo _) => s
  | .error (.other msg) => { s with stderr := s.stderr ++ [msg ++ "\n"] }
  | .ok pkg =>
    let files : List String := []
    let files := files ++ pkg.GoFiles
    let files := files ++ pkg.CgoFiles
    let files := files ++ pkg.TestGoFiles
    let files := if pkg.Dir ≠ "." then joinFrom env pkg.Dir files.length 0 files else files
    lintFiles env fl files s

/-- The function `lintDir`. -/
def lintDir (env : Env) (fl : Flags) (dirname : String) (s : State) : State :=
  lintImportedPackage env fl (env.importDir dirname)
    { s with events := s.events ++ [Event.importDir dirname] }

/-- The function `lintPackage`. -/
def lintPackage (env : Env) (fl : Flags) (pkgname : String) (s : State) : State :=
  lintImportedPackage env fl (env.importPkg pkgname ".")
    { s with events := s.events ++ [Event.importPkg pkgname "."] }

/-- The locals `dirsRun`, `filesRun`, `pkgsRun` and `args` of `main`. -/
structure Targets where
  dirsRun : Int
  filesRun : Int
  pkgsRun : Int
  args : List String
  deriving DecidableEq

/-- The body of the classification loop of `main`, for one argument. -/
def classify (env : Env) (t : Targets) (arg : String) : Targets :=
  if HasSuffix arg "/..." && isDir env (trimMarker arg) then
    { t with dirsRun := 1, args := t.args ++ env.allPackagesInFS arg }
  else if isDir env arg then
    { t with dirsRun := 1, args := t.args ++ [arg] }
  else if «exists» env arg then
    { t with filesRun := 1, args := t.args ++ [arg] }
  else
    { t with pkgsRun := 1, args := t.args ++ [arg] }

/-- The classification loop of `main` over `flag.Args()`. -/
def classifyAll (env : Env) (args : List String) : Targets :=
  args.foldl (classify env) ⟨0, 0, 0, []⟩

/-- The end of `main`: exit status 1 when `-set_exit_status` is given and a
suggestion was counted, a normal return otherwise. -/
def finish (fl : Flags) (s : State) : Result :=
  if fl.setExitStatus && decide (s.suggestions > 0) then
    ⟨{ s with stderr := s.stderr ++
        ["Found " ++ toString s.suggestions ++ " lint suggestions; failing.\n"] }, 1⟩
  else ⟨s, 0⟩

/-- The function `main`, on the parsed flags and `flag.Args()`. -/
def main (env : Env) (fl : Flags) (args : List String) : Result :=
  if args.length = 0 then
    finish fl (lintDir env fl "." State.init)
  else
    let t := classifyAll env args
    if t.dirsRun + t.filesRun + t.pkgsRun ≠ 1 then
      ⟨usage env State.init, 2⟩
    else if t.dirsRun = 1 then
      finish fl (t.args.foldl (fun s dir => lintDir env fl dir s) State.init)
    else if t.filesRun = 1 then
      finish fl (lintFiles env fl t.args State.init)
    else if t.pkgsRun = 1 then
      finish fl ((env.importPaths t.args).foldl (fun s pkg => lintPackage env fl pkg s) State.init)
    else
      finish fl State.init

/-! ## Notions used to state the properties -/

/-- The three kinds of target. -/
inductive Kind where
  | directory
  | file
  | package
  deriving DecidableEq

/-- The kind that the classification loop of `main` takes an argument for: the
counter that the loop body sets for it. -/
def kindOf (env : Env) (arg : String) : Kind :=
  let t := classify env ⟨0, 0, 0, []⟩ arg
  if t.dirsRun = 1 then Kind.directory
  else if t.filesRun = 1 then Kind.file
  else Kind.package

/-- The arguments are of more than one kind. -/
def MixedKinds (env : Env) (args : List String) : Prop :=
  ∃ a ∈ args, ∃ b ∈ args, kindOf env a ≠ kindOf env b

/-- The targets one argument stands for: an existing directory followed by the
recursive marker `/...` stands for the directories that `allPackagesInFS` finds
for it, any other argument stands for itself. -/
def expandArg (env : Env) (arg : String) : List String :=
  if HasSuffix arg "/..." && isDir env (trimMarker arg) then env.allPackagesInFS arg
  else [arg]

/-- The targets of an argument list after recursive expansion: the expansions of
the arguments one after the other, in the order of the arguments, repetitions
kept. -/
def expandDirs (env : Env) (args : List String) : List String :=
  (args.map (expandArg env)).flatten

/-- An argument that names a directory target: an existing directory, or an
existing directory followed by the recursive marker. -/
def isDirTarget (env : Env) (arg : String) : Bool :=
  (HasSuffix arg "/..." && isDir env (trimMarker arg)) || isDir env arg

/-- An argument that names a file target: an existing file that is not a
directory, and not an existing directory followed by the recursive marker. -/
def isFileTarget (env : Env) (arg : String) : Bool :=
  !(HasSuffix arg "/..." && isDir env (trimMarker arg)) && !isDir env arg && «exists» env arg

/-- The directories handed to `build.ImportDir`, in order. -/
def dirCalls : List Event → List String
  | [] => []
  | Event.importDir d :: rest => d :: dirCalls rest
  | _ :: rest => dirCalls rest

/-- The packages handed to `build.Import`, in order. -/
def pkgCalls : List Event → List String
  | [] => []
  | Event.importPkg p _ :: rest => p :: pkgCalls rest
  | _ :: rest => pkgCalls rest

/-- The file maps handed to the analyzer, in order. -/
def analyzerCalls : List Event → List FileMap
  | [] => []
  | Event.analyzer _ m :: rest => m :: analyzerCalls rest
  | _ :: rest => analyzerCalls rest

/-- The messages of the failed reads of a list of file names, in order. -/
def readErrors (env : Env) : List String → List String
  | [] => []
  | filename :: rest =>
    match env.readFile filename with
    | .error err => (err ++ "\n") :: readErrors env rest
    | .ok _ => readErrors env rest

/-! ## Concrete environments -/

/-- An environment with an empty filesystem: nothing exists, every read fails,
no directory has Go sources, no package is found, the analyzer finds nothing. -/
def envEmpty : Env where
  arg0 := "golint"
  printDefaults := []
  stat := fun _ => none
  readFile := fun n => .error ("open " ++ n ++ ": no such file or directory")
  importDir := fun d => .error (.noGo d)
  importPkg := fun p _ => .error (.other ("cannot find package " ++ p))
  join := fun d f => d ++ "/" ++ f
  analyzer := fun _ _ => .ok []
  positionString := fun p => p.Filename
  allPackagesInFS := fun a => [trimMarker a]
  importPaths := fun l => l

/-- Three findings on `a.go`, with confidence 1, 0 and 4/5. -/
def demoProblems : List Problem :=
  [⟨⟨"a.go", 0, 1, 1⟩, "first", Float64.finite 1⟩,
   ⟨⟨"a.go", 9, 2, 1⟩, "second", Float64.finite 0⟩,
   ⟨⟨"a.go", 20, 3, 1⟩, "third", Float64.finite (mkRat 4 5)⟩]

/-- The current directory holds the readable file `a.go`; `b.go` exists but cannot
be read; the analyzer returns `demoProblems` whenever it is given `a.go`. -/
def envDemo : Env :=
  { envEmpty with
    stat := fun n =>
      if n = "." then some ⟨true⟩
      else if n = "a.go" ∨ n = "b.go" then some ⟨false⟩
      else none
    readFile := fun n =>
      if n = "a.go" then .ok [112] else .error ("open " ++ n ++ ": permission denied")
    importDir := fun d =>
      if d = "." then .ok ⟨".", ["a.go"], [], [], []⟩ else .error (.noGo d)
    analyzer := fun _ m =>
      match m.get? "a.go" with
      | some _ => .ok demoProblems
      | none => .ok [] }

/-- The flags with the threshold 4/5 and `-set_exit_status`. -/
def flagsDemo : Flags :=
  { minConfidence := Float64.finite (mkRat 4 5), setExitStatus := true }

/-- A package in the directory `src/p` with one file of each class. -/
def demoPackage : Package :=
  ⟨"src/p", ["p.go"], ["c.go"], ["p_test.go"], ["x_test.go"]⟩

/-- The directory `x` holds a regular file whose name is `...`. -/
def envMarkerFile : Env :=
  { envEmpty with
    stat := fun n =>
      if n = "x" then some ⟨true⟩
      else if n = "x/..." then some ⟨false⟩
      else none }

/-- The root directory holds a directory whose name is `...`; `os.Stat("")` fails. -/
def envRootDots : Env :=
  { envEmpty with stat := fun n => if n = "/..." then some ⟨true⟩ else none }

/-- The directory `d` holds external test files only: its resolution succeeds
with empty lists of primary, cgo and in-package test files. -/
def envXTestOnly : Env :=
  { envEmpty with
    stat := fun n => if n = "d" then some ⟨true⟩ else none
    importDir := fun dir =>
      if dir = "d" then .ok ⟨"d", [], [], [], ["x_test.go"]⟩ else .error (.noGo dir) }

/-- The directory `root` has the sub-directory `root/sub`; the recursive
expansion of `root/...` finds both. -/
def envTree : Env :=
  { envEmpty with
    stat := fun n => if n = "root" ∨ n = "root/sub" then some ⟨true⟩ else none
    allPackagesInFS := fun a => if a = "root/..." then ["root", "root/sub"] else [] }

/-! ## The file map -/

theorem FileMap.mem_keys_set (m : FileMap) (k : String) (v : Bytes) (k' : String) :
    k' ∈ (m.set k v).keys ↔ k' = k ∨ k' ∈ m.keys := by
  induction m with
  | nil => simp [FileMap.set, FileMap.keys]
  | cons kv rest ih =>
    obtain ⟨k₀, v₀⟩ := kv
    by_cases h : k₀ = k
    · subst h
      simp [FileMap.set, FileMap.keys]
    · have ih' : k' ∈ List.map Prod.fst (FileMap.set rest k v) ↔
          k' = k ∨ k' ∈ List.map Prod.fst rest := ih
      simp only [FileMap.set, h, if_false, FileMap.keys, List.map_cons, List.mem_cons, ih']
      tauto

theorem FileMap.nodup_keys_set (m : FileMap) (k : String) (v : Bytes)
    (h : m.keys.Nodup) : (m.set k v).keys.Nodup := by
  induction m with
  | nil => simp [FileMap.set, FileMap.keys]
  | cons kv rest ih =>
    obtain ⟨k₀, v₀⟩ := kv
    have h' : k₀ ∉ FileMap.keys rest ∧ (FileMap.keys rest).Nodup := by
      simpa [FileMap.keys] using h
    by_cases hk : k₀ = k
    · subst hk
      simpa [FileMap.set, FileMap.keys] using h
    · have hmem : k₀ ∉ (FileMap.set rest k v).keys := by
        rw [FileMap.mem_keys_set]
        rintro (h1 | h1)
        · exact hk h1
        · exact h'.1 h1
      have hnd : (FileMap.set rest k v).keys.Nodup := ih h'.2
      simp only [FileMap.set, hk, if_false]
      exact List.nodup_cons.mpr ⟨hmem, hnd⟩

theorem FileMap.get?_set (m : FileMap) (k : String) (v : Bytes) (k' : String) :
    (m.set k v).get? k' = if k = k' then some v else m.get? k' := by
  induction m with
  | nil => simp [FileMap.set, FileMap.get?]
  | cons kv rest ih =>
    obtain ⟨k₀, v₀⟩ := kv
    by_cases h : k₀ = k
    · subst h
      by_cases h2 : k₀ = k' <;> simp [FileMap.set, FileMap.get?, h2]
    · by_cases h2 : k₀ = k'
      · subst h2
        have h3 : ¬ k = k₀ := fun e => h e.symm
        simp [FileMap.set, FileMap.get?, h, h3]
      · simp [FileMap.set, FileMap.get?, h, h2, ih]

theorem FileMap.get?_isSome_iff (m : FileMap) (k : String) :
    (∃ b, m.get? k = some b) ↔ k ∈ m.keys := by
  induction m with
  | nil => simp [FileMap.get?, FileMap.keys]
  | cons kv rest ih =>
    obtain ⟨k₀, v₀⟩ := kv
    have ih' : (∃ b, FileMap.get? rest k = some b) ↔ k ∈ List.map Prod.fst rest := ih
    by_cases h : k₀ = k
    · subst h
      simp [FileMap.get?, FileMap.keys]
    · have h3 : ¬ k = k₀ := fun e => h e.symm
      simp [FileMap.get?, FileMap.keys, h, h3, ih']

/-! ## The two loops of `lintFiles` -/

theorem readFiles_snd (env : Env) (names : List String) (m : FileMap) (errs : List String) :
    (readFiles env names (m, errs)).2 = errs ++ readErrors env names := by
  induction names generalizing m errs with
  | nil => simp [readFiles, readErrors]
  | cons n rest ih =>
    cases h : env.readFile n with
    | error e => simp [readFiles, readErrors, h, ih]
    | ok b => simp [readFiles, readErrors, h, ih]

theorem readFiles_nodup (env : Env) (names : List String) (m : FileMap) (errs : List String)
    (h : m.keys.Nodup) : (readFiles env names (m, errs)).1.keys.Nodup := by
  induction names generalizing m errs with
  | nil => simpa [readFiles] using h
  | cons n rest ih =>
    cases hr : env.readFile n with
    | error e => simpa [readFiles, hr] using ih m _ h
    | ok b => simpa [readFiles, hr] using ih _ errs (FileMap.nodup_keys_set m n b h)

theorem readFiles_get? (env : Env) (names : List String) (m : FileMap) (errs : List String)
    (k : String) :
    (readFiles env names (m, errs)).1.get? k =
      if k ∈ names then
        (match env.readFile k with
          | .ok b => some b
          | .error _ => m.get? k)
      else m.get? k := by
  induction names generalizing m errs with
  | nil => simp [readFiles]
  | cons n rest ih =>
    cases hr : env.readFile n with
    | error e =>
      simp only [readFiles, hr, ih, List.mem_cons]
      by_cases h1 : k ∈ rest
      · simp [h1]
      · by_cases h2 : k = n
        · subst h2
          simp [h1, hr]
        · simp [h1, h2]
    | ok b =>
      simp only [readFiles, hr, ih, List.mem_cons, FileMap.get?_set]
      by_cases h2 : k = n
      · subst h2
        simp [hr]
      · have h3 : ¬ n = k := fun e => h2 e.symm
        simp [h2, h3]

/-! ## The counter, a Go `int` -/

theorem wrapInt64_of_inRange (x : Int) (h1 : minInt64 ≤ x) (h2 : x ≤ maxInt64) :
    wrapInt64 x = x := by
  unfold wrapInt64
  unfold minInt64 at h1
  unfold maxInt64 at h2
  omega

theorem wrapInt64_inRange (x : Int) : minInt64 ≤ wrapInt64 x ∧ wrapInt64 x ≤ maxInt64 := by
  unfold wrapInt64 minInt64 maxInt64
  omega

theorem wrapInt64_wrap_add (a b : Int) : wrapInt64 (wrapInt64 a + b) = wrapInt64 (a + b) := by
  unfold wrapInt64
  omega

/-- The counter after `n` statements `suggestions++`, from a value `a` as a Go
`int` holds it. -/
theorem incSuggestions_iterate_wrap (n : Nat) (a : Int) :
    incSuggestions^[n] (wrapInt64 a) = wrapInt64 (a + (n : Int)) := by
  induction n with
  | zero => simp
  | succ k ih =>
    rw [Function.iterate_succ_apply', ih]
    unfold incSuggestions
    rw [wrapInt64_wrap_add]
    congr 1
    push_cast
    ring

theorem incSuggestions_iterate (n : Nat) (c : Int) (h1 : minInt64 ≤ c) (h2 : c ≤ maxInt64) :
    incSuggestions^[n] c = wrapInt64 (c + (n : Int)) := by
  have h := incSuggestions_iterate_wrap n c
  rwa [wrapInt64_of_inRange c h1 h2] at h

theorem incSuggestions_iterate_of_fits (n : Nat) (c : Int) (h1 : minInt64 ≤ c)
    (h2 : c + (n : Int) ≤ maxInt64) : incSuggestions^[n] c = c + (n : Int) := by
  have hn : (0 : Int) ≤ (n : Int) := Int.ofNat_nonneg n
  rw [incSuggestions_iterate n c h1 (by omega)]
  exact wrapInt64_of_inRange _ (by omega) h2

theorem report_eq (env : Env) (fl : Flags) (ps : List Problem) (s : State) :
    report env fl ps s =
      { s with
        stdout := s.stdout ++
          (ps.filter (fun p => Float64.ge p.Confidence fl.minConfidence)).map (problemLine env)
        suggestions := incSuggestions^[(ps.filter
          (fun p => Float64.ge p.Confidence fl.minConfidence)).length] s.suggestions } := by
  induction ps generalizing s with
  | nil => simp [report]
  | cons p rest ih =>
    by_cases h : Float64.ge p.Confidence fl.minConfidence = true
    · simp [report, h, ih]
    · simp [report, h, ih]

theorem lintFiles_error (env : Env) (fl : Flags) (names : List String) (s : State)
    (e : String)
    (h : env.analyzer fl.linter (readFiles env names ([], s.stderr)).1 = .error e) :
    lintFiles env fl names s =
      { s with
        stderr := s.stderr ++ readErrors env names ++ [e ++ "\n"]
        events := s.events ++
          [Event.analyzer fl.linter (readFiles env names ([], s.stderr)).1] } := by
  unfold lintFiles
  simp only [h, readFiles_snd]

theorem lintFiles_ok (env : Env) (fl : Flags) (names : List String) (s : State)
    (ps : List Problem)
    (h : env.analyzer fl.linter (readFiles env names ([], s.stderr)).1 = .ok ps) :
    lintFiles env fl names s =
      { suggestions := incSuggestions^[(ps.filter
          (fun p => Float64.ge p.Confidence fl.minConfidence)).length] s.suggestions
        stdout := s.stdout ++
          (ps.filter (fun p => Float64.ge p.Confidence fl.minConfidence)).map (problemLine env)
        stderr := s.stderr ++ readErrors env names
        events := s.events ++
          [Event.analyzer fl.linter (readFiles env names ([], s.stderr)).1] } := by
  unfold lintFiles
  simp only [h, readFiles_snd, report_eq]

theorem lintFiles_events (env : Env) (fl : Flags) (names : List String) (s : State) :
    (lintFiles env fl names s).events =
      s.events ++ [Event.analyzer fl.linter (readFiles env names ([], s.stderr)).1] := by
  cases h : env.analyzer fl.linter (readFiles env names ([], s.stderr)).1 with
  | error e => rw [lintFiles_error env fl names s e h]
  | ok ps => rw [lintFiles_ok env fl names s ps h]

/-- What `lintFiles` does to the counter: one `suggestions++` for each line it
adds to standard output. -/
theorem lintFiles_suggestions (env : Env) (fl : Flags) (names : List String) (s : State) :
    (lintFiles env fl names s).suggestions =
      incSuggestions^[(lintFiles env fl names s).stdout.length - s.stdout.length]
        s.suggestions := by
  cases hA : env.analyzer fl.linter (readFiles env names ([], s.stderr)).1 with
  | error e => rw [lintFiles_error env fl names s e hA]; simp
  | ok ps => rw [lintFiles_ok env fl names s ps hA]; simp

theorem lintFiles_stdout_length (env : Env) (fl : Flags) (names : List String) (s : State) :
    s.stdout.length ≤ (lintFiles env fl names s).stdout.length := by
  cases hA : env.analyzer fl.linter (readFiles env names ([], s.stderr)).1 with
  | error e => rw [lintFiles_error env fl names s e hA]
  | ok ps => rw [lintFiles_ok env fl names s ps hA]; simp

theorem lintFiles_counts (env : Env) (fl : Flags) (names : List String) (s : State)
    (h : s.suggestions = wrapInt64 (s.stdout.length : Int)) :
    (lintFiles env fl names s).suggestions =
      wrapInt64 ((lintFiles env fl names s).stdout.length : Int) := by
  have hle := lintFiles_stdout_length env fl names s
  rw [lintFiles_suggestions, h, incSuggestions_iterate_wrap]
  congr 1
  omega

theorem Float64.ge_of_eq (a b : Float64) (h : Float64.eq a b = true) :
    Float64.ge a b = true := by
  cases a <;> cases b <;> simp_all [Float64.eq, Float64.ge]

theorem Float64.not_ge_of_lt (a b : Float64) (h : Float64.lt a b = true) :
    Float64.ge a b = false := by
  cases a <;> cases b <;> simp_all [Float64.lt, Float64.ge]

theorem readErrors_length (env : Env) (names : List String) :
    (readErrors env names).length =
      names.countP (fun n => match env.readFile n with
        | .error _ => true
        | .ok _ => false) := by
  induction names with
  | nil => simp [readErrors]
  | cons n rest ih =>
    cases hr : env.readFile n <;> simp [readErrors, hr, ih, List.countP_cons]

/-! ## The two loops of `lintFiles`: the properties -/

/-- At the top of the range the counter wraps: from `maxInt64`, the two printed
findings of the demo run leave it at `minInt64 + 1`. -/
theorem lintFiles_counter_wraps :
    (lintFiles envDemo flagsDemo ["a.go"] ⟨9223372036854775807, [], [], []⟩).suggestions =
      -9223372036854775807 := by
  decide

/-- C2: when the analyzer succeeds with the findings `ps`, `lintFiles` prints the
line of exactly those findings whose confidence is `>=` the threshold, in the
order of `ps` and with their multiplicity, and executes `suggestions++` once for
each printed line; the counter being a Go `int`, it ends at the start value plus
the number of printed lines whenever that sum fits in an `int`, and at that sum
wrapped around otherwise.  A finding whose confidence equals the threshold is
among the printed ones, a finding strictly below it is not. -/
theorem lintFiles_prints_at_or_above_threshold (env : Env) (fl : Flags)
    (names : List String) (s : State) (ps : List Problem)
    (h : env.analyzer fl.linter (readFiles env names ([], s.stderr)).1 = .ok ps) :
    (lintFiles env fl names s).stdout =
        s.stdout ++ (ps.filter (fun p => Float64.ge p.Confidence fl.minConfidence)).map
          (problemLine env) ∧
      (lintFiles env fl names s).suggestions =
        incSuggestions^[(ps.filter
          (fun p => Float64.ge p.Confidence fl.minConfidence)).length] s.suggestions ∧
      (minInt64 ≤ s.suggestions → s.suggestions ≤ maxInt64 →
        (lintFiles env fl names s).suggestions =
          wrapInt64 (s.suggestions +
            ((ps.filter (fun p => Float64.ge p.Confidence fl.minConfidence)).length : Int))) ∧
      (minInt64 ≤ s.suggestions →
        s.suggestions +
          ((ps.filter (fun p => Float64.ge p.Confidence fl.minConfidence)).length : Int) ≤
            maxInt64 →
        (lintFiles env fl names s).suggestions =
          s.suggestions +
            ((ps.filter (fun p => Float64.ge p.Confidence fl.minConfidence)).length : Int)) ∧
      (lintFiles env fl names s).stdout.length =
        s.stdout.length +
          (ps.filter (fun p => Float64.ge p.Confidence fl.minConfidence)).length ∧
      (∀ p ∈ ps, Float64.eq p.Confidence fl.minConfidence = true →
        p ∈ ps.filter (fun p => Float64.ge p.Confidence fl.minConfidence)) ∧
      (∀ p ∈ ps, Float64.lt p.Confidence fl.minConfidence = true →
        p ∉ ps.filter (fun p => Float64.ge p.Confidence fl.minConfidence)) ∧
      (∀ p, (ps.filter (fun p => Float64.ge p.Confidence fl.minConfidence)).count p =
        if Float64.ge p.Confidence fl.minConfidence = true then ps.count p else 0) := by
  rw [lintFiles_ok env fl names s ps h]
  refine ⟨rfl, rfl, ?_, ?_, by simp, ?_, ?_, ?_⟩
  · intro h1 h2
    exact incSuggestions_iterate _ _ h1 h2
  · intro h1 h2
    exact incSuggestions_iterate_of_fits _ _ h1 h2
  · intro p hp he
    exact List.mem_filter.mpr ⟨hp, by simpa using Float64.ge_of_eq _ _ he⟩
  · intro p _ hl hmem
    have hg := (List.mem_filter.mp hmem).2
    have hn := Float64.not_ge_of_lt _ _ hl
    simp [hn] at hg
  · intro p
    by_cases hg : Float64.ge p.Confidence fl.minConfidence = true
    · simp [List.count_filter, hg]
    · simp only [hg, if_false]
      exact List.count_eq_zero.mpr (fun hm => hg (by simpa using (List.mem_filter.mp hm).2))

/-- A run of `lintFiles` on `a.go` with threshold 4/5, from the start state: of
the findings with confidence 1, 0 and 4/5 the first and the third are printed,
and the counter goes from 0 to 2. -/
theorem lintFiles_prints_at_or_above_threshold_witness :
    (lintFiles envDemo flagsDemo ["a.go"] State.init).stdout =
        [] ++ (demoProblems.filter
          (fun p => Float64.ge p.Confidence flagsDemo.minConfidence)).map (problemLine envDemo) ∧
      (demoProblems.filter (fun p => Float64.ge p.Confidence flagsDemo.minConfidence)).map
          (problemLine envDemo) = ["a.go: first\n", "a.go: third\n"] ∧
      (lintFiles envDemo flagsDemo ["a.go"] State.init).suggestions =
        State.init.suggestions +
          ((demoProblems.filter
            (fun p => Float64.ge p.Confidence flagsDemo.minConfidence)).length : Int) ∧
      (lintFiles envDemo flagsDemo ["a.go"] State.init).suggestions = 2 :=
  ⟨(lintFiles_prints_at_or_above_threshold envDemo flagsDemo ["a.go"] State.init demoProblems
      rfl).1, by decide,
    (lintFiles_prints_at_or_above_threshold envDemo flagsDemo ["a.go"] State.init demoProblems
      rfl).2.2.2.1 (by decide) (by decide), by decide⟩

/-- C5: `lintFiles` invokes the analyzer exactly once, with a map whose keys are
pairwise different and are exactly the listed names whose read succeeds, each
mapped to the content read; every listed name whose read fails contributes one
message to the error stream, in order, and nothing else is written there before
the analyzer runs. -/
theorem lintFiles_reads_each_file (env : Env) (fl : Flags) (names : List String) (s : State) :
    ∃ m : FileMap,
      (lintFiles env fl names s).events = s.events ++ [Event.analyzer fl.linter m] ∧
      analyzerCalls [Event.analyzer fl.linter m] = [m] ∧
      m.keys.Nodup ∧
      (∀ k, k ∈ m.keys ↔ k ∈ names ∧ ∃ b, env.readFile k = .ok b) ∧
      (∀ k b, m.get? k = some b ↔ k ∈ names ∧ env.readFile k = .ok b) ∧
      (∀ k, k ∈ names → (∀ b, env.readFile k ≠ .ok b) → k ∉ m.keys) ∧
      (readErrors env names).length =
        names.countP (fun n => match env.readFile n with
          | .error _ => true
          | .ok _ => false) ∧
      (lintFiles env fl names s).stderr =
        s.stderr ++ readErrors env names ++
          (match env.analyzer fl.linter m with
            | .error e => [e ++ "\n"]
            | .ok _ => []) := by
  have hget : ∀ k b, (readFiles env names ([], s.stderr)).1.get? k = some b ↔
      k ∈ names ∧ env.readFile k = .ok b := by
    intro k b
    rw [readFiles_get?]
    by_cases hk : k ∈ names
    · cases hr : env.readFile k <;> simp [hk, FileMap.get?]
    · simp [hk, FileMap.get?]
  have hkeys : ∀ k, k ∈ (readFiles env names ([], s.stderr)).1.keys ↔
      k ∈ names ∧ ∃ b, env.readFile k = .ok b := by
    intro k
    rw [← FileMap.get?_isSome_iff]
    constructor
    · rintro ⟨b, hb⟩
      exact ⟨((hget k b).mp hb).1, b, ((hget k b).mp hb).2⟩
    · rintro ⟨hk, b, hb⟩
      exact ⟨b, (hget k b).mpr ⟨hk, hb⟩⟩
  refine ⟨(readFiles env names ([], s.stderr)).1, lintFiles_events env fl names s, rfl,
    readFiles_nodup env names [] _ (by simp [FileMap.keys]), hkeys, hget, ?_, ?_, ?_⟩
  · intro k _ hno hmem
    obtain ⟨_, b, hb⟩ := (hkeys k).mp hmem
    exact hno b hb
  · exact readErrors_length env names
  · cases hA : env.analyzer fl.linter (readFiles env names ([], s.stderr)).1 with
    | error e => rw [lintFiles_error env fl names s e hA]
    | ok ps => rw [lintFiles_ok env fl names s ps hA]; simp

/-! ## `lintImportedPackage` -/

theorem joinFrom_append (env : Env) (dir : String) (suf pre : List String) :
    joinFrom env dir suf.length pre.length (pre ++ suf) = pre ++ suf.map (env.join dir) := by
  induction suf generalizing pre with
  | nil => simp [joinFrom]
  | cons f rest ih =>
    have hget : (pre ++ f :: rest).get? pre.length = some f := by
      rw [List.get?_eq_getElem?, List.getElem?_append_right (le_refl _)]
      simp
    have hset : (pre ++ f :: rest).set pre.length (env.join dir f) =
        (pre ++ [env.join dir f]) ++ rest := by simp
    have hlen : pre.length + 1 = (pre ++ [env.join dir f]).length := by simp
    simp only [List.length_cons, joinFrom, hget, hset]
    rw [hlen, ih]
    simp

theorem joinFrom_eq_map (env : Env) (dir : String) (files : List String) :
    joinFrom env dir files.length 0 files = files.map (env.join dir) := by
  simpa using joinFrom_append env dir files []

/-- C6: for a successfully resolved package `lintImportedPackage` hands to
`lintFiles` the primary Go files, then the cgo files, then the in-package test
files, and nothing else (no external-test file); each entry is joined to the
package directory when that directory is not ".", and is passed unchanged when it
is ".". -/
theorem lintImportedPackage_file_list (env : Env) (fl : Flags) (pkg : Package) (s : State) :
    (pkg.Dir ≠ "." →
      lintImportedPackage env fl (.ok pkg) s =
        lintFiles env fl
          ((pkg.GoFiles ++ pkg.CgoFiles ++ pkg.TestGoFiles).map (env.join pkg.Dir)) s) ∧
    (pkg.Dir = "." →
      lintImportedPackage env fl (.ok pkg) s =
        lintFiles env fl (pkg.GoFiles ++ pkg.CgoFiles ++ pkg.TestGoFiles) s) := by
  constructor
  · intro h
    simp only [lintImportedPackage, List.nil_append, ne_eq, h, not_false_eq_true, if_true,
      joinFrom_eq_map]
  · intro h
    simp only [lintImportedPackage, List.nil_append, ne_eq, h, not_true_eq_false, if_false]

/-- The package `src/p`: its three lists are joined to `src/p`, in order, and the
external test file is left out. -/
theorem lintImportedPackage_file_list_witness :
    demoPackage.Dir ≠ "." ∧
      lintImportedPackage envEmpty flagsDemo (.ok demoPackage) State.init =
        lintFiles envEmpty flagsDemo ["src/p/p.go", "src/p/c.go", "src/p/p_test.go"]
          State.init :=
  ⟨by decide,
    (lintImportedPackage_file_list envEmpty flagsDemo demoPackage State.init).1 (by decide)⟩

/-- C4: on the no-sources error `lintImportedPackage` changes nothing at all
(no error message, no analyzer call, no finding, counter unchanged); on any other
resolution error it only appends the error to the error stream.  So `lintDir`
and `lintPackage` leave the streams, the counter and the analyzer calls untouched
on a no-sources target, and the loop over the targets goes on with the next
target after either kind of error. -/
theorem lintImportedPackage_resolution_error (env : Env) (fl : Flags) (s : State) :
    (∀ dir, lintImportedPackage env fl (.error (.noGo dir)) s = s) ∧
    (∀ msg, lintImportedPackage env fl (.error (.other msg)) s =
      { s with stderr := s.stderr ++ [msg ++ "\n"] }) ∧
    (∀ d dir, env.importDir d = .error (.noGo dir) →
      (lintDir env fl d s).stderr = s.stderr ∧ (lintDir env fl d s).stdout = s.stdout ∧
      (lintDir env fl d s).suggestions = s.suggestions ∧
      analyzerCalls (lintDir env fl d s).events = analyzerCalls s.events) ∧
    (∀ p dir, env.importPkg p "." = .error (.noGo dir) →
      (lintPackage env fl p s).stderr = s.stderr ∧ (lintPackage env fl p s).stdout = s.stdout ∧
      (lintPackage env fl p s).suggestions = s.suggestions ∧
      analyzerCalls (lintPackage env fl p s).events = analyzerCalls s.events) ∧
    (∀ d msg, env.importDir d = .error (.other msg) →
      (lintDir env fl d s).stderr = s.stderr ++ [msg ++ "\n"] ∧
      (lintDir env fl d s).stdout = s.stdout ∧
      (lintDir env fl d s).suggestions = s.suggestions ∧
      analyzerCalls (lintDir env fl d s).events = analyzerCalls s.events) ∧
    (∀ p msg, env.importPkg p "." = .error (.other msg) →
      (lintPackage env fl p s).stderr = s.stderr ++ [msg ++ "\n"] ∧
      (lintPackage env fl p s).stdout = s.stdout ∧
      (lintPackage env fl p s).suggestions = s.suggestions ∧
      analyzerCalls (lintPackage env fl p s).events = analyzerCalls s.events) ∧
    (∀ d e rest, env.importDir d = .error e →
      (d :: rest).foldl (fun s dir => lintDir env fl dir s) s =
        rest.foldl (fun s dir => lintDir env fl dir s)
          (lintImportedPackage env fl (.error e)
            { s with events := s.events ++ [Event.importDir d] })) ∧
    (∀ p e rest, env.importPkg p "." = .error e →
      (p :: rest).foldl (fun s pkg => lintPackage env fl pkg s) s =
        rest.foldl (fun s pkg => lintPackage env fl pkg s)
          (lintImportedPackage env fl (.error e)
            { s with events := s.events ++ [Event.importPkg p "."] })) := by
  have hcalls : ∀ (evs : List Event) (d : String),
      analyzerCalls (evs ++ [Event.importDir d]) = analyzerCalls evs := by
    intro evs d
    induction evs with
    | nil => rfl
    | cons e rest ih => cases e <;> simp [analyzerCalls, ih]
  have hcalls' : ∀ (evs : List Event) (p q : String),
      analyzerCalls (evs ++ [Event.importPkg p q]) = analyzerCalls evs := by
    intro evs p q
    induction evs with
    | nil => rfl
    | cons e rest ih => cases e <;> simp [analyzerCalls, ih]
  refine ⟨fun _ => rfl, fun _ => rfl, ?_, ?_, ?_, ?_, ?_, ?_⟩
  · intro d dir h
    simp [lintDir, lintImportedPackage, h, hcalls]
  · intro p dir h
    simp [lintPackage, lintImportedPackage, h, hcalls']
  · intro d msg h
    simp [lintDir, lintImportedPackage, h, hcalls]
  · intro p msg h
    simp [lintPackage, lintImportedPackage, h, hcalls']
  · intro d e rest h
    simp [lintDir, h]
  · intro p e rest h
    simp [lintPackage, h]

/-- With an empty filesystem the directory `d` has no Go sources and the package
`p` is not found: the first is skipped in silence, the second is reported, and
the loop goes on to the target after it. -/
theorem lintImportedPackage_resolution_error_witness :
    envEmpty.importDir "d" = .error (.noGo "d") ∧
      (lintDir envEmpty flagsDemo "d" State.init).stderr = State.init.stderr ∧
      envEmpty.importPkg "p" "." = .error (.other "cannot find package p") ∧
      (lintPackage envEmpty flagsDemo "p" State.init).stderr =
        State.init.stderr ++ ["cannot find package p" ++ "\n"] ∧
      ["p", "q"].foldl (fun s pkg => lintPackage envEmpty flagsDemo pkg s) State.init =
        ["q"].foldl (fun s pkg => lintPackage envEmpty flagsDemo pkg s)
          (lintImportedPackage envEmpty flagsDemo (.error (.other "cannot find package p"))
            { State.init with events := State.init.events ++ [Event.importPkg "p" "."] }) :=
  ⟨rfl,
    ((lintImportedPackage_resolution_error envEmpty flagsDemo State.init).2.2.1
      "d" "d" rfl).1,
    rfl,
    ((lintImportedPackage_resolution_error envEmpty flagsDemo State.init).2.2.2.2.2.1
      "p" "cannot find package p" rfl).1,
    (lintImportedPackage_resolution_error envEmpty flagsDemo State.init).2.2.2.2.2.2.2
      "p" (.other "cannot find package p") ["q"] rfl⟩

/-! ## The classification loop of `main` -/

theorem classify_eq (env : Env) (t : Targets) (arg : String) :
    classify env t arg =
      match kindOf env arg with
      | Kind.directory =>
        { t with dirsRun := 1, args := t.args ++ (classify env ⟨0, 0, 0, []⟩ arg).args }
      | Kind.file =>
        { t with filesRun := 1, args := t.args ++ (classify env ⟨0, 0, 0, []⟩ arg).args }
      | Kind.package =>
        { t with pkgsRun := 1, args := t.args ++ (classify env ⟨0, 0, 0, []⟩ arg).args } := by
  unfold kindOf classify
  by_cases h1 : (HasSuffix arg "/..." && isDir env (trimMarker arg)) = true
  · simp [h1]
  · by_cases h2 : isDir env arg = true
    · simp [h1, h2]
    · by_cases h3 : «exists» env arg = true
      · simp [h1, h2, h3]
      · simp [h1, h2, h3]

/-- The targets that the loop body of `main` appends for one argument are the
expansion of that argument. -/
theorem classify_args (env : Env) (arg : String) :
    (classify env ⟨0, 0, 0, []⟩ arg).args = expandArg env arg := by
  unfold classify expandArg
  by_cases h1 : (HasSuffix arg "/..." && isDir env (trimMarker arg)) = true
  · simp [h1]
  · by_cases h2 : isDir env arg = true
    · simp [h1, h2]
    · by_cases h3 : «exists» env arg = true
      · simp [h1, h2, h3]
      · simp [h1, h2, h3]

theorem foldl_classify (env : Env) (args : List String) (t : Targets) :
    args.foldl (classify env) t =
      { dirsRun := if Kind.directory ∈ args.map (kindOf env) then 1 else t.dirsRun
        filesRun := if Kind.file ∈ args.map (kindOf env) then 1 else t.filesRun
        pkgsRun := if Kind.package ∈ args.map (kindOf env) then 1 else t.pkgsRun
        args := t.args ++ expandDirs env args } := by
  induction args generalizing t with
  | nil => simp [expandDirs]
  | cons a rest ih =>
    rw [List.foldl_cons, ih, classify_eq, classify_args]
    cases hk : kindOf env a <;> simp [expandDirs, hk, List.append_assoc]

theorem classifyAll_eq (env : Env) (args : List String) :
    classifyAll env args =
      { dirsRun := if Kind.directory ∈ args.map (kindOf env) then 1 else 0
        filesRun := if Kind.file ∈ args.map (kindOf env) then 1 else 0
        pkgsRun := if Kind.package ∈ args.map (kindOf env) then 1 else 0
        args := expandDirs env args } := by
  unfold classifyAll
  rw [foldl_classify]
  simp

theorem mixedKinds_iff (env : Env) (args : List String) :
    MixedKinds env args ↔
      (Kind.directory ∈ args.map (kindOf env) ∧ Kind.file ∈ args.map (kindOf env)) ∨
      (Kind.directory ∈ args.map (kindOf env) ∧ Kind.package ∈ args.map (kindOf env)) ∨
      (Kind.file ∈ args.map (kindOf env) ∧ Kind.package ∈ args.map (kindOf env)) := by
  constructor
  · rintro ⟨a, ha, b, hb, hne⟩
    have ha' : kindOf env a ∈ args.map (kindOf env) := List.mem_map_of_mem _ ha
    have hb' : kindOf env b ∈ args.map (kindOf env) := List.mem_map_of_mem _ hb
    cases hka : kindOf env a <;> cases hkb : kindOf env b <;>
      simp only [hka, hkb] at ha' hb' hne <;> first
        | exact absurd rfl hne
        | exact Or.inl ⟨ha', hb'⟩
        | exact Or.inl ⟨hb', ha'⟩
        | exact Or.inr (Or.inl ⟨ha', hb'⟩)
        | exact Or.inr (Or.inl ⟨hb', ha'⟩)
        | exact Or.inr (Or.inr ⟨ha', hb'⟩)
        | exact Or.inr (Or.inr ⟨hb', ha'⟩)
  · have key : ∀ k₁ k₂ : Kind, k₁ ≠ k₂ → k₁ ∈ args.map (kindOf env) →
        k₂ ∈ args.map (kindOf env) → MixedKinds env args := by
      intro k₁ k₂ hne h1 h2
      obtain ⟨a, ha, hka⟩ := List.mem_map.mp h1
      obtain ⟨b, hb, hkb⟩ := List.mem_map.mp h2
      exact ⟨a, ha, b, hb, by rw [hka, hkb]; exact hne⟩
    rintro (⟨h1, h2⟩ | ⟨h1, h2⟩ | ⟨h1, h2⟩)
    · exact key _ _ (by decide) h1 h2
    · exact key _ _ (by decide) h1 h2
    · exact key _ _ (by decide) h1 h2

theorem some_kind_mem (env : Env) (args : List String) (hne : args ≠ []) :
    Kind.directory ∈ args.map (kindOf env) ∨ Kind.file ∈ args.map (kindOf env) ∨
      Kind.package ∈ args.map (kindOf env) := by
  cases args with
  | nil => exact absurd rfl hne
  | cons a rest =>
    cases hk : kindOf env a <;> simp [hk]

theorem sum_ne_one_iff (env : Env) (args : List String) (hne : args ≠ []) :
    (classifyAll env args).dirsRun + (classifyAll env args).filesRun +
        (classifyAll env args).pkgsRun ≠ 1 ↔ MixedKinds env args := by
  rw [mixedKinds_iff, classifyAll_eq]
  have h := some_kind_mem env args hne
  by_cases hd : Kind.directory ∈ args.map (kindOf env) <;>
    by_cases hf : Kind.file ∈ args.map (kindOf env) <;>
    by_cases hp : Kind.package ∈ args.map (kindOf env) <;>
    simp [hd, hf, hp] at h ⊢

theorem main_of_mixed (env : Env) (fl : Flags) (args : List String) (hne : args ≠ [])
    (h : MixedKinds env args) : main env fl args = ⟨usage env State.init, 2⟩ := by
  have hlen : ¬ args.length = 0 := by simpa using hne
  have hs := (sum_ne_one_iff env args hne).mpr h
  simp only [main, hlen, if_false]
  rw [if_pos hs]

theorem finish_exitCode (fl : Flags) (s : State) :
    (finish fl s).exitCode = if fl.setExitStatus = true ∧ s.suggestions > 0 then 1 else 0 := by
  unfold finish
  by_cases h : fl.setExitStatus = true <;> by_cases h2 : s.suggestions > 0 <;> simp [h, h2]

theorem finish_stdout (fl : Flags) (s : State) :
    (finish fl s).state.stdout = s.stdout ∧ (finish fl s).state.suggestions = s.suggestions ∧
      (finish fl s).state.events = s.events := by
  unfold finish
  split_ifs <;> simp

theorem main_of_not_mixed (env : Env) (fl : Flags) (args : List String) (hne : args ≠ [])
    (h : ¬ MixedKinds env args) : ∃ s, main env fl args = finish fl s := by
  have hlen : ¬ args.length = 0 := by simpa using hne
  have hs : ¬ ((classifyAll env args).dirsRun + (classifyAll env args).filesRun +
      (classifyAll env args).pkgsRun ≠ 1) := fun hc => h ((sum_ne_one_iff env args hne).mp hc)
  simp only [main, hlen, if_false]
  rw [if_neg hs]
  split_ifs <;> exact ⟨_, rfl⟩

theorem kindOf_directory_of_isDir (env : Env) (d : String) (h : isDir env d = true) :
    kindOf env d = Kind.directory := by
  unfold kindOf classify
  by_cases h1 : (HasSuffix d "/..." && isDir env (trimMarker d)) = true
  · simp [h1]
  · simp [h1, h]

theorem kindOf_file_of_stat (env : Env) (f : String) (h : env.stat f = some ⟨false⟩)
    (hm : ¬ (HasSuffix f "/..." = true ∧ isDir env (trimMarker f) = true)) :
    kindOf env f = Kind.file := by
  have h1 : ¬ (HasSuffix f "/..." && isDir env (trimMarker f)) = true := by
    simpa using hm
  have h2 : isDir env f = false := by simp [isDir, h]
  have h3 : «exists» env f = true := by simp [«exists», h]
  unfold kindOf classify
  simp [h1, h2, h3]

/-! ## The log of calls and the counter along a run -/

theorem dirCalls_append (xs ys : List Event) :
    dirCalls (xs ++ ys) = dirCalls xs ++ dirCalls ys := by
  induction xs with
  | nil => rfl
  | cons e rest ih => cases e <;> simp [dirCalls, ih]

theorem pkgCalls_append (xs ys : List Event) :
    pkgCalls (xs ++ ys) = pkgCalls xs ++ pkgCalls ys := by
  induction xs with
  | nil => rfl
  | cons e rest ih => cases e <;> simp [pkgCalls, ih]

theorem analyzerCalls_append (xs ys : List Event) :
    analyzerCalls (xs ++ ys) = analyzerCalls xs ++ analyzerCalls ys := by
  induction xs with
  | nil => rfl
  | cons e rest ih => cases e <;> simp [analyzerCalls, ih]

/-- What `lintImportedPackage` adds to the log: nothing on an error, one analyzer
call otherwise. -/
theorem lintImportedPackage_events (env : Env) (fl : Flags) (r : Except BuildError Package)
    (s : State) :
    ∃ tail, (lintImportedPackage env fl r s).events = s.events ++ tail ∧
      (tail = [] ∨ ∃ m, tail = [Event.analyzer fl.linter m]) := by
  cases r with
  | error e =>
    cases e with
    | noGo d => exact ⟨[], by simp [lintImportedPackage], Or.inl rfl⟩
    | other msg => exact ⟨[], by simp [lintImportedPackage], Or.inl rfl⟩
  | ok pkg =>
    have h := lintFiles_events env fl
      (if pkg.Dir ≠ "." then
        joinFrom env pkg.Dir (([] ++ pkg.GoFiles ++ pkg.CgoFiles) ++ pkg.TestGoFiles).length 0
          (([] ++ pkg.GoFiles ++ pkg.CgoFiles) ++ pkg.TestGoFiles)
      else ([] ++ pkg.GoFiles ++ pkg.CgoFiles) ++ pkg.TestGoFiles) s
    exact ⟨_, h, Or.inr ⟨_, rfl⟩⟩

theorem lintImportedPackage_counts (env : Env) (fl : Flags) (r : Except BuildError Package)
    (s : State) (h : s.suggestions = wrapInt64 (s.stdout.length : Int)) :
    (lintImportedPackage env fl r s).suggestions =
      wrapInt64 ((lintImportedPackage env fl r s).stdout.length : Int) := by
  cases r with
  | error e =>
    cases e with
    | noGo d => simpa [lintImportedPackage] using h
    | other msg => simpa [lintImportedPackage] using h
  | ok pkg =>
    simp only [lintImportedPackage]
    exact lintFiles_counts env fl _ s h

theorem lintDir_calls (env : Env) (fl : Flags) (d : String) (s : State) :
    dirCalls (lintDir env fl d s).events = dirCalls s.events ++ [d] ∧
      pkgCalls (lintDir env fl d s).events = pkgCalls s.events ∧
      (Event.usage ∈ (lintDir env fl d s).events → Event.usage ∈ s.events) := by
  obtain ⟨tail, ht, hcase⟩ := lintImportedPackage_events env fl (env.importDir d)
    { s with events := s.events ++ [Event.importDir d] }
  unfold lintDir
  rw [ht]
  rcases hcase with h | ⟨m, h⟩ <;> subst h <;>
    simp [dirCalls_append, pkgCalls_append, dirCalls, pkgCalls]

theorem lintPackage_calls (env : Env) (fl : Flags) (p : String) (s : State) :
    dirCalls (lintPackage env fl p s).events = dirCalls s.events ∧
      pkgCalls (lintPackage env fl p s).events = pkgCalls s.events ++ [p] ∧
      (Event.usage ∈ (lintPackage env fl p s).events → Event.usage ∈ s.events) := by
  obtain ⟨tail, ht, hcase⟩ := lintImportedPackage_events env fl (env.importPkg p ".")
    { s with events := s.events ++ [Event.importPkg p "."] }
  unfold lintPackage
  rw [ht]
  rcases hcase with h | ⟨m, h⟩ <;> subst h <;>
    simp [dirCalls_append, pkgCalls_append, dirCalls, pkgCalls]

theorem foldl_lintDir_calls (env : Env) (fl : Flags) (dirs : List String) (s : State) :
    dirCalls (dirs.foldl (fun s dir => lintDir env fl dir s) s).events =
        dirCalls s.events ++ dirs ∧
      (Event.usage ∈ (dirs.foldl (fun s dir => lintDir env fl dir s) s).events →
        Event.usage ∈ s.events) := by
  induction dirs generalizing s with
  | nil => simp
  | cons d rest ih =>
    obtain ⟨h1, h2⟩ := ih (lintDir env fl d s)
    obtain ⟨h3, _, h5⟩ := lintDir_calls env fl d s
    simp only [List.foldl_cons]
    refine ⟨?_, fun hu => h5 (h2 hu)⟩
    rw [h1, h3]
    simp

theorem foldl_lintDir_counts (env : Env) (fl : Flags) (dirs : List String) (s : State)
    (h : s.suggestions = wrapInt64 (s.stdout.length : Int)) :
    (dirs.foldl (fun s dir => lintDir env fl dir s) s).suggestions =
      wrapInt64 ((dirs.foldl (fun s dir => lintDir env fl dir s) s).stdout.length : Int) := by
  induction dirs generalizing s with
  | nil => simpa using h
  | cons d rest ih =>
    simp only [List.foldl_cons]
    exact ih _ (lintImportedPackage_counts env fl _ _ h)

theorem foldl_lintPackage_counts (env : Env) (fl : Flags) (pkgs : List String) (s : State)
    (h : s.suggestions = wrapInt64 (s.stdout.length : Int)) :
    (pkgs.foldl (fun s pkg => lintPackage env fl pkg s) s).suggestions =
      wrapInt64 ((pkgs.foldl (fun s pkg => lintPackage env fl pkg s) s).stdout.length : Int) := by
  induction pkgs generalizing s with
  | nil => simpa using h
  | cons d rest ih =>
    simp only [List.foldl_cons]
    exact ih _ (lintImportedPackage_counts env fl _ _ h)

theorem foldl_lintPackage_usage (env : Env) (fl : Flags) (pkgs : List String) (s : State) :
    Event.usage ∈ (pkgs.foldl (fun s pkg => lintPackage env fl pkg s) s).events →
      Event.usage ∈ s.events := by
  induction pkgs generalizing s with
  | nil => simp
  | cons d rest ih =>
    simp only [List.foldl_cons]
    exact fun hu => (lintPackage_calls env fl d s).2.2 (ih _ hu)

/-- A run that is not rejected ends in `finish`, from a state in which the
counter is the number of lines on standard output, as a Go `int` holds it, and
`usage` was not called. -/
theorem main_of_one_kind (env : Env) (fl : Flags) (args : List String)
    (h : args = [] ∨ ¬ MixedKinds env args) :
    ∃ s, main env fl args = finish fl s ∧ s.suggestions = wrapInt64 (s.stdout.length : Int) ∧
      Event.usage ∉ s.events := by
  have h0 : State.init.suggestions = wrapInt64 (State.init.stdout.length : Int) := by decide
  have hu : Event.usage ∉ State.init.events := by simp [State.init]
  by_cases hne : args = []
  · subst hne
    refine ⟨lintDir env fl "." State.init, by simp [main],
      lintImportedPackage_counts env fl _ _ h0, fun hc => hu ((lintDir_calls env fl _ _).2.2 hc)⟩
  · have hm : ¬ MixedKinds env args := h.resolve_left hne
    have hlen : ¬ args.length = 0 := by simpa using hne
    have hs : ¬ ((classifyAll env args).dirsRun + (classifyAll env args).filesRun +
        (classifyAll env args).pkgsRun ≠ 1) :=
      fun hc => hm ((sum_ne_one_iff env args hne).mp hc)
    simp only [main, hlen, if_false]
    rw [if_neg hs]
    split_ifs
    · exact ⟨_, rfl, foldl_lintDir_counts env fl _ _ h0,
        fun hc => hu ((foldl_lintDir_calls env fl _ _).2 hc)⟩
    · refine ⟨_, rfl, lintFiles_counts env fl _ _ h0, ?_⟩
      rw [lintFiles_events]
      simp [State.init]
    · exact ⟨_, rfl, foldl_lintPackage_counts env fl _ _ h0,
        fun hc => hu (foldl_lintPackage_usage env fl _ _ hc)⟩
    · exact ⟨_, rfl, h0, hu⟩

theorem expandArg_of_not_directory (env : Env) (a : String)
    (h : kindOf env a ≠ Kind.directory) : expandArg env a = [a] := by
  unfold kindOf classify at h
  unfold expandArg
  by_cases h1 : (HasSuffix a "/..." && isDir env (trimMarker a)) = true
  · simp [h1] at h
  · simp [h1]

theorem expandArg_of_plain (env : Env) (a : String)
    (h : HasSuffix a "/..." = false) : expandArg env a = [a] := by
  simp [expandArg, h]

theorem expandDirs_cons (env : Env) (a : String) (rest : List String) :
    expandDirs env (a :: rest) = expandArg env a ++ expandDirs env rest := by
  simp [expandDirs]

theorem expandDirs_eq_self (env : Env) (args : List String)
    (h : ∀ a ∈ args, expandArg env a = [a]) :
    expandDirs env args = args := by
  induction args with
  | nil => simp [expandDirs]
  | cons a rest ih =>
    rw [expandDirs_cons, h a (by simp), ih (fun b hb => h b (by simp [hb]))]
    simp

theorem expandDirs_length (env : Env) (args : List String) :
    (expandDirs env args).length = (args.map (fun a => (expandArg env a).length)).sum := by
  induction args with
  | nil => simp [expandDirs]
  | cons a rest ih => simp [expandDirs_cons, ih]

theorem kindOf_directory_of_isDirTarget (env : Env) (a : String)
    (h : isDirTarget env a = true) : kindOf env a = Kind.directory := by
  unfold isDirTarget at h
  unfold kindOf classify
  by_cases h1 : (HasSuffix a "/..." && isDir env (trimMarker a)) = true
  · simp [h1]
  · have h2 : isDir env a = true := by simpa [h1] using h
    simp [h1, h2]

theorem kindOf_file_of_isFileTarget (env : Env) (a : String)
    (h : isFileTarget env a = true) : kindOf env a = Kind.file := by
  unfold isFileTarget at h
  unfold kindOf classify
  by_cases h1 : (HasSuffix a "/..." && isDir env (trimMarker a)) = true
  · simp [h1] at h
  · by_cases h2 : isDir env a = true
    · simp [h2] at h
    · have h3 : «exists» env a = true := by simpa [h1, h2] using h
      simp [h1, h2, h3]

theorem kinds_of_uniform (env : Env) (args : List String) (k : Kind)
    (h : ∀ a ∈ args, kindOf env a = k) (k' : Kind) (hk : k' ∈ args.map (kindOf env)) :
    k' = k := by
  obtain ⟨a, ha, hka⟩ := List.mem_map.mp hk
  rw [← hka]
  exact h a ha

theorem kind_mem_of_uniform (env : Env) (args : List String) (k : Kind) (hne : args ≠ [])
    (h : ∀ a ∈ args, kindOf env a = k) : k ∈ args.map (kindOf env) := by
  cases args with
  | nil => exact absurd rfl hne
  | cons a rest => simp [h a (by simp)]

theorem main_all_directories (env : Env) (fl : Flags) (args : List String) (hne : args ≠ [])
    (h : ∀ a ∈ args, kindOf env a = Kind.directory) :
    main env fl args =
      finish fl ((expandDirs env args).foldl (fun s dir => lintDir env fl dir s) State.init) := by
  have hlen : ¬ args.length = 0 := by simpa using hne
  have hd := kind_mem_of_uniform env args _ hne h
  have hf : Kind.file ∉ args.map (kindOf env) :=
    fun hc => absurd (kinds_of_uniform env args _ h _ hc) (by decide)
  have hp : Kind.package ∉ args.map (kindOf env) :=
    fun hc => absurd (kinds_of_uniform env args _ h _ hc) (by decide)
  simp only [main, hlen, if_false, classifyAll_eq, hd, hf, hp, if_true]
  simp

theorem main_all_files (env : Env) (fl : Flags) (args : List String) (hne : args ≠ [])
    (h : ∀ a ∈ args, kindOf env a = Kind.file) :
    main env fl args = finish fl (lintFiles env fl args State.init) := by
  have hlen : ¬ args.length = 0 := by simpa using hne
  have hf := kind_mem_of_uniform env args _ hne h
  have hd : Kind.directory ∉ args.map (kindOf env) :=
    fun hc => absurd (kinds_of_uniform env args _ h _ hc) (by decide)
  have hp : Kind.package ∉ args.map (kindOf env) :=
    fun hc => absurd (kinds_of_uniform env args _ h _ hc) (by decide)
  have he : expandDirs env args = args :=
    expandDirs_eq_self env args (fun a ha =>
      expandArg_of_not_directory env a (by rw [h a ha]; decide))
  simp only [main, hlen, if_false, classifyAll_eq, hd, hf, hp, if_true, he]
  simp

/-! ## Mixed target kinds -/

/-- C1, as stated, fails: the regular file `x/...` (a file named `...` in the
directory `x`) together with the directory `x` is not rejected, in either order,
because the argument `x/...` is taken for the directory `x` with its
sub-directories. -/
theorem main_accepts_marker_file_with_directory :
    envMarkerFile.stat "x/..." = some ⟨false⟩ ∧ envMarkerFile.stat "x" = some ⟨true⟩ ∧
      (main envMarkerFile flagsDemo ["x/...", "x"]).exitCode = 0 ∧
      (main envMarkerFile flagsDemo ["x", "x/..."]).exitCode = 0 ∧
      dirCalls (main envMarkerFile flagsDemo ["x/...", "x"]).state.events = ["x", "x"] := by
  decide

/-- C1, amended: for a non-empty argument list `main` rejects the run iff the
arguments are of more than one kind; a rejected run prints the usage text, exits
with code 2, calls neither `build.ImportDir`, `build.Import` nor the analyzer,
prints nothing on standard output and leaves the counter at 0.  An existing
non-directory file that is not of the form "existing directory followed by /..."
together with an existing directory is rejected in either order. -/
theorem main_rejects_iff_mixed_kinds (env : Env) (fl : Flags) (args : List String)
    (hne : args ≠ []) :
    ((main env fl args).exitCode = 2 ↔ MixedKinds env args) ∧
    (MixedKinds env args →
      (main env fl args).state.stderr = usageText env ∧
      (main env fl args).state.events = [Event.usage] ∧
      dirCalls (main env fl args).state.events = [] ∧
      pkgCalls (main env fl args).state.events = [] ∧
      analyzerCalls (main env fl args).state.events = [] ∧
      (main env fl args).state.stdout = [] ∧
      (main env fl args).state.suggestions = 0) ∧
    (∀ f d, env.stat f = some ⟨false⟩ → env.stat d = some ⟨true⟩ →
      ¬ (HasSuffix f "/..." = true ∧ isDir env (trimMarker f) = true) →
      (main env fl [f, d]).exitCode = 2 ∧ (main env fl [d, f]).exitCode = 2) := by
  refine ⟨⟨?_, ?_⟩, ?_, ?_⟩
  · intro h2
    by_contra hm
    obtain ⟨s, hs⟩ := main_of_not_mixed env fl args hne hm
    rw [hs, finish_exitCode] at h2
    split_ifs at h2
    exact absurd h2 (by decide)
  · intro hm
    rw [main_of_mixed env fl args hne hm]
  · intro hm
    rw [main_of_mixed env fl args hne hm]
    simp [usage, State.init, dirCalls, pkgCalls, analyzerCalls]
  · intro f d hf hd hmk
    have kf := kindOf_file_of_stat env f hf hmk
    have kd := kindOf_directory_of_isDir env d (by simp [isDir, hd])
    constructor
    · rw [main_of_mixed env fl [f, d] (by simp)
        ⟨f, by simp, d, by simp, by rw [kf, kd]; decide⟩]
    · rw [main_of_mixed env fl [d, f] (by simp)
        ⟨d, by simp, f, by simp, by rw [kf, kd]; decide⟩]

/-- The file `a.go` together with the directory `.` is rejected. -/
theorem main_rejects_iff_mixed_kinds_witness :
    ["a.go", "."] ≠ [] ∧ (main envDemo flagsDemo ["a.go", "."]).exitCode = 2 ∧
      (main envDemo flagsDemo [".", "a.go"]).exitCode = 2 :=
  ⟨by decide,
    ((main_rejects_iff_mixed_kinds envDemo flagsDemo ["a.go", "."] (by decide)).2.2
      "a.go" "." rfl rfl (by decide)).1,
    ((main_rejects_iff_mixed_kinds envDemo flagsDemo ["a.go", "."] (by decide)).2.2
      "a.go" "." rfl rfl (by decide)).2⟩

/-! ## The recursive marker -/

/-- C7, as stated, fails: the argument `/...` ends in the marker and its prefix,
the empty string, is not an existing directory, yet when the root holds a
directory named `...` the argument is taken for a directory target. -/
theorem classify_marker_with_existing_full_path :
    HasSuffix "/..." "/..." = true ∧ isDir envRootDots (trimMarker "/...") = false ∧
      (classifyAll envRootDots ["/..."]).dirsRun = 1 ∧
      (classifyAll envRootDots ["/..."]).pkgsRun = 0 ∧
      kindOf envRootDots "/..." = Kind.directory := by
  decide

/-- C7, amended: an argument that ends in `/...` and whose prefix is not an
existing directory is classified by the tests on the whole argument: a package
target when `os.Stat` reports nothing for the whole argument, a directory target
(without expansion) when the whole argument is an existing directory, a file
target when it is another existing file. -/
theorem classify_marker_without_directory (env : Env) (t : Targets) (arg : String)
    (hs : HasSuffix arg "/..." = true) (hp : isDir env (trimMarker arg) = false) :
    (env.stat arg = none →
      classify env t arg = { t with pkgsRun := 1, args := t.args ++ [arg] } ∧
      kindOf env arg = Kind.package) ∧
    (isDir env arg = true →
      classify env t arg = { t with dirsRun := 1, args := t.args ++ [arg] } ∧
      kindOf env arg = Kind.directory) ∧
    («exists» env arg = true → isDir env arg = false →
      classify env t arg = { t with filesRun := 1, args := t.args ++ [arg] } ∧
      kindOf env arg = Kind.file) := by
  refine ⟨?_, ?_, ?_⟩
  · intro h
    have hd : isDir env arg = false := by simp [isDir, h]
    have he : «exists» env arg = false := by simp [«exists», h]
    simp [kindOf, classify, hs, hp, hd, he]
  · intro h
    simp [kindOf, classify, hs, hp, h]
  · intro h1 h2
    simp [kindOf, classify, hs, hp, h1, h2]

/-- With an empty filesystem the argument `nowhere/...` is a package target. -/
theorem classify_marker_without_directory_witness :
    HasSuffix "nowhere/..." "/..." = true ∧ isDir envEmpty (trimMarker "nowhere/...") = false ∧
      classify envEmpty ⟨0, 0, 0, []⟩ "nowhere/..." = ⟨0, 0, 1, ["nowhere/..."]⟩ :=
  ⟨by decide, by decide,
    ((classify_marker_without_directory envEmpty ⟨0, 0, 0, []⟩ "nowhere/..."
      (by decide) (by decide)).1 rfl).1⟩

/-! ## The exit code -/

/-- C3: in a run that is not a usage error (no argument, or arguments of one
kind) the exit code is 1 iff `-set_exit_status` is given and the suggestion
counter is positive, and 0 otherwise.  The counter is the number of findings
printed, as a Go `int` holds it: it is that number, and the exit code is 1 iff
the flag is given and a finding was printed, whenever the number fits in an
`int`.  The error paths do not touch the counter: a resolution error and an
analyzer error leave it as it was, and whatever reads fail, `lintFiles` executes
`suggestions++` once for each line it prints. -/
theorem main_exit_code (env : Env) (fl : Flags) (args : List String)
    (h : args = [] ∨ ¬ MixedKinds env args) :
    ((main env fl args).exitCode = 1 ↔
      fl.setExitStatus = true ∧ (main env fl args).state.suggestions > 0) ∧
    ((main env fl args).exitCode = 0 ↔
      ¬ (fl.setExitStatus = true ∧ (main env fl args).state.suggestions > 0)) ∧
    (main env fl args).state.suggestions =
      wrapInt64 ((main env fl args).state.stdout.length : Int) ∧
    (((main env fl args).state.stdout.length : Int) ≤ maxInt64 →
      (main env fl args).state.suggestions = ((main env fl args).state.stdout.length : Int) ∧
      ((main env fl args).exitCode = 1 ↔
        fl.setExitStatus = true ∧ 0 < (main env fl args).state.stdout.length) ∧
      ((main env fl args).exitCode = 0 ↔
        ¬ (fl.setExitStatus = true ∧ 0 < (main env fl args).state.stdout.length))) ∧
    Event.usage ∉ (main env fl args).state.events ∧
    (∀ e s, (lintImportedPackage env fl (.error e) s).suggestions = s.suggestions ∧
      (lintImportedPackage env fl (.error e) s).stdout = s.stdout) ∧
    (∀ names s e, env.analyzer fl.linter (readFiles env names ([], s.stderr)).1 = .error e →
      (lintFiles env fl names s).suggestions = s.suggestions ∧
      (lintFiles env fl names s).stdout = s.stdout) ∧
    (∀ names s, (lintFiles env fl names s).suggestions =
      incSuggestions^[(lintFiles env fl names s).stdout.length - s.stdout.length]
        s.suggestions) := by
  obtain ⟨s, hs, hinv, hu⟩ := main_of_one_kind env fl args h
  obtain ⟨h1, h2, h3⟩ := finish_stdout fl s
  rw [hs]
  have hexit1 : (finish fl s).exitCode = 1 ↔
      fl.setExitStatus = true ∧ (finish fl s).state.suggestions > 0 := by
    rw [finish_exitCode, h2]
    split_ifs with hc <;> simp [hc]
  have hexit0 : (finish fl s).exitCode = 0 ↔
      ¬ (fl.setExitStatus = true ∧ (finish fl s).state.suggestions > 0) := by
    rw [finish_exitCode, h2]
    split_ifs with hc <;> simp [hc]
  refine ⟨hexit1, hexit0, ?_, ?_, ?_, ?_, ?_, ?_⟩
  · rw [h1, h2]
    exact hinv
  · intro hfit
    rw [h1] at hfit
    have hn : (0 : Int) ≤ (s.stdout.length : Int) := Int.ofNat_nonneg _
    have hcount : (finish fl s).state.suggestions = (s.stdout.length : Int) := by
      rw [h2, hinv]
      exact wrapInt64_of_inRange _ (by unfold minInt64; omega) hfit
    have hpos : (finish fl s).state.suggestions > 0 ↔ 0 < s.stdout.length := by
      rw [hcount]
      omega
    rw [h1]
    exact ⟨hcount, by rw [hexit1, hpos], by rw [hexit0, hpos]⟩
  · rw [h3]
    exact hu
  · intro e s'
    cases e <;> simp [lintImportedPackage]
  · intro names s' e he
    rw [lintFiles_error env fl names s' e he]
    simp
  · intro names s'
    exact lintFiles_suggestions env fl names s'

/-- The run on `a.go` with `-set_exit_status` prints two findings and exits
with code 1, although the unreadable `b.go` is reported on the error stream. -/
theorem main_exit_code_witness :
    ¬ MixedKinds envDemo ["a.go", "b.go"] ∧
      ((main envDemo flagsDemo ["a.go", "b.go"]).exitCode = 1 ↔
        flagsDemo.setExitStatus = true ∧
          (main envDemo flagsDemo ["a.go", "b.go"]).state.suggestions > 0) ∧
      (main envDemo flagsDemo ["a.go", "b.go"]).exitCode = 1 ∧
      (main envDemo flagsDemo ["a.go", "b.go"]).state.suggestions = 2 ∧
      (main envDemo flagsDemo ["a.go", "b.go"]).state.stdout.length = 2 :=
  have hm : ¬ MixedKinds envDemo ["a.go", "b.go"] := by
    rw [mixedKinds_iff]
    decide
  ⟨hm, (main_exit_code envDemo flagsDemo ["a.go", "b.go"] (Or.inr hm)).1, by decide, by decide,
    by decide⟩

/-! ## The run without arguments -/

/-- C8: with an empty argument list `main` hands "." to `build.ImportDir` once,
lints what it returns and ends through the ordinary exit: `usage` is not called
and the exit code is not 2.  When "." is a directory this is exactly the run
with the single argument ".". -/
theorem main_no_arguments (env : Env) (fl : Flags) :
    main env fl [] =
      finish fl (lintImportedPackage env fl (env.importDir ".")
        { State.init with events := [Event.importDir "."] }) ∧
    dirCalls (main env fl []).state.events = ["."] ∧
    pkgCalls (main env fl []).state.events = [] ∧
    Event.usage ∉ (main env fl []).state.events ∧
    (main env fl []).exitCode ≠ 2 ∧
    (isDir env "." = true → main env fl [] = main env fl ["."]) := by
  have hmain : main env fl [] = finish fl (lintDir env fl "." State.init) := by simp [main]
  obtain ⟨h1, h2, h3⟩ := finish_stdout fl (lintDir env fl "." State.init)
  obtain ⟨c1, c2, c3⟩ := lintDir_calls env fl "." State.init
  refine ⟨by simp [main, lintDir, State.init], ?_, ?_, ?_, ?_, ?_⟩
  · rw [hmain, h3, c1]
    simp [State.init, dirCalls]
  · rw [hmain, h3, c2]
    simp [State.init, pkgCalls]
  · rw [hmain, h3]
    exact fun hc => absurd (c3 hc) (by simp [State.init])
  · rw [hmain, finish_exitCode]
    split_ifs <;> decide
  · intro hd
    have hk : ∀ a ∈ ["."], kindOf env a = Kind.directory := by
      intro a ha
      rw [List.mem_singleton.mp ha]
      exact kindOf_directory_of_isDir env "." hd
    have he : expandDirs env ["."] = ["."] :=
      expandDirs_eq_self env ["."] (fun a ha => by
        rw [List.mem_singleton.mp ha]
        exact expandArg_of_plain env "." (by decide))
    rw [hmain, main_all_directories env fl ["."] (by simp) hk, he]
    simp

/-- In the demo environment the run without arguments is the run on ".". -/
theorem main_no_arguments_witness :
    isDir envDemo "." = true ∧ main envDemo flagsDemo [] = main envDemo flagsDemo ["."] ∧
      (main envDemo flagsDemo []).state.stdout = ["a.go: first\n", "a.go: third\n"] :=
  ⟨by decide, (main_no_arguments envDemo flagsDemo).2.2.2.2.2 (by decide), by decide⟩

/-! ## The number of compilation units -/

/-- C9, as stated, fails: the directory "." given twice is resolved twice, while
the list holds one distinct directory target. -/
theorem main_resolves_repeated_directory_twice :
    (∀ a ∈ [".", "."], kindOf envDemo a = Kind.directory) ∧
      dirCalls (main envDemo flagsDemo [".", "."]).state.events = [".", "."] ∧
      (dirCalls (main envDemo flagsDemo [".", "."]).state.events).length = 2 ∧
      (expandDirs envDemo [".", "."]).dedup.length = 1 := by
  decide

/-- C9, amended: in an all-directory run `main` calls `lintDir` once for every
target of the recursive expansion of the argument list, in order and with
repetitions (no deduplication): an existing directory followed by `/...`
contributes every directory that `allPackagesInFS` returns for it, any other
directory argument contributes itself, so the number of resolved units is the
sum of these contributions.  In an all-file run there is no `lintDir` call and a
single `lintFiles` call, on the full argument list, with a single analyzer
invocation. -/
theorem main_resolved_units (env : Env) (fl : Flags) (args : List String) (hne : args ≠ []) :
    ((∀ a ∈ args, isDirTarget env a = true) →
      main env fl args =
        finish fl ((expandDirs env args).foldl (fun s dir => lintDir env fl dir s) State.init) ∧
      dirCalls (main env fl args).state.events =
        (args.map (fun a =>
          if HasSuffix a "/..." && isDir env (trimMarker a) then env.allPackagesInFS a
          else [a])).flatten ∧
      (dirCalls (main env fl args).state.events).length =
        (args.map (fun a =>
          if HasSuffix a "/..." && isDir env (trimMarker a) then (env.allPackagesInFS a).length
          else 1)).sum ∧
      ((∀ a ∈ args, HasSuffix a "/..." = false) →
        dirCalls (main env fl args).state.events = args)) ∧
    ((∀ a ∈ args, isFileTarget env a = true) →
      main env fl args = finish fl (lintFiles env fl args State.init) ∧
      dirCalls (main env fl args).state.events = [] ∧
      pkgCalls (main env fl args).state.events = [] ∧
      (analyzerCalls (main env fl args).state.events).length = 1) := by
  constructor
  · intro h
    have hm := main_all_directories env fl args hne
      (fun a ha => kindOf_directory_of_isDirTarget env a (h a ha))
    have hc : dirCalls (main env fl args).state.events = expandDirs env args := by
      rw [hm, (finish_stdout fl _).2.2, (foldl_lintDir_calls env fl _ _).1]
      simp [State.init, dirCalls]
    refine ⟨hm, hc, ?_, ?_⟩
    · rw [hc, expandDirs_length]
      congr 1
      refine List.map_congr_left (fun a _ => ?_)
      unfold expandArg
      split_ifs <;> simp
    · intro hplain
      rw [hc]
      exact expandDirs_eq_self env args (fun a ha => expandArg_of_plain env a (hplain a ha))
  · intro h
    have hm := main_all_files env fl args hne
      (fun a ha => kindOf_file_of_isFileTarget env a (h a ha))
    rw [hm, (finish_stdout fl _).2.2, lintFiles_events]
    simp [State.init, dirCalls, pkgCalls, analyzerCalls]

/-- The all-directory run on `root/...` and `root`: the expansion of the first
argument and then the second are resolved, three units in all, `root` twice. -/
theorem main_resolved_units_witness :
    ["root/...", "root"] ≠ [] ∧ (∀ a ∈ ["root/...", "root"], isDirTarget envTree a = true) ∧
      dirCalls (main envTree flagsDemo ["root/...", "root"]).state.events =
        ([envTree.allPackagesInFS "root/...", ["root"]]).flatten ∧
      dirCalls (main envTree flagsDemo ["root/...", "root"]).state.events =
        ["root", "root/sub", "root"] ∧
      (dirCalls (main envTree flagsDemo ["root/...", "root"]).state.events).length = 3 :=
  ⟨by decide, by decide,
    ((main_resolved_units envTree flagsDemo ["root/...", "root"] (by decide)).1
      (by decide)).2.1,
    by decide, by decide⟩

/-- The all-file run on `a.go` and `b.go` is one `lintFiles` call. -/
theorem main_all_file_run_demo :
    (∀ a ∈ ["a.go", "b.go"], isFileTarget envDemo a = true) ∧
      main envDemo flagsDemo ["a.go", "b.go"] =
        finish flagsDemo (lintFiles envDemo flagsDemo ["a.go", "b.go"] State.init) ∧
      (analyzerCalls (main envDemo flagsDemo ["a.go", "b.go"]).state.events).length = 1 := by
  decide

/-! ## Directories without files to lint -/

/-- C10, as stated, fails: the directory `d`, which holds external test files
only, resolves successfully with empty primary, cgo and test lists, and the
analyzer is invoked all the same, once, on the empty map. -/
theorem main_lints_empty_file_list :
    envXTestOnly.importDir "d" = .ok ⟨"d", [], [], [], ["x_test.go"]⟩ ∧
      kindOf envXTestOnly "d" = Kind.directory ∧
      analyzerCalls (main envXTestOnly flagsDemo ["d"]).state.events = [[]] ∧
      (main envXTestOnly flagsDemo ["d"]).state.events =
        [Event.importDir "d", Event.analyzer flagsDemo.linter []] := by
  refine ⟨rfl, by decide, by decide, by decide⟩

/-- C10, amended: for every directory whose resolution succeeds, `lintDir` hands
the file list to `lintFiles` and the analyzer is invoked exactly once, whether
the list is empty or not; when the primary, cgo and test lists are all empty the
analyzer is invoked on the empty map. -/
theorem lintDir_invokes_analyzer_once (env : Env) (fl : Flags) (d : String) (pkg : Package)
    (s : State) (h : env.importDir d = .ok pkg) :
    ∃ m : FileMap,
      (lintDir env fl d s).events =
        s.events ++ [Event.importDir d, Event.analyzer fl.linter m] ∧
      analyzerCalls (lintDir env fl d s).events = analyzerCalls s.events ++ [m] ∧
      (pkg.GoFiles = [] → pkg.CgoFiles = [] → pkg.TestGoFiles = [] → m = []) := by
  obtain ⟨tail, ht, hcase⟩ := lintImportedPackage_events env fl (.ok pkg)
    { s with events := s.events ++ [Event.importDir d] }
  have hev : ∀ names, (lintImportedPackage env fl (.ok pkg)
      { s with events := s.events ++ [Event.importDir d] }) =
        lintFiles env fl names { s with events := s.events ++ [Event.importDir d] } →
      (lintDir env fl d s).events = s.events ++ [Event.importDir d,
        Event.analyzer fl.linter (readFiles env names ([], s.stderr)).1] := by
    intro names hn
    unfold lintDir
    rw [h, hn, lintFiles_events]
    simp
  have hfiles : ∃ names, (lintImportedPackage env fl (.ok pkg)
      { s with events := s.events ++ [Event.importDir d] }) =
        lintFiles env fl names { s with events := s.events ++ [Event.importDir d] } ∧
      (pkg.GoFiles = [] → pkg.CgoFiles = [] → pkg.TestGoFiles = [] → names = []) := by
    refine ⟨_, rfl, ?_⟩
    intro h1 h2 h3
    simp [h1, h2, h3, joinFrom]
  obtain ⟨names, hn, hempty⟩ := hfiles
  refine ⟨(readFiles env names ([], s.stderr)).1, hev names hn, ?_, ?_⟩
  · rw [hev names hn, analyzerCalls_append]
    simp [analyzerCalls]
  · intro h1 h2 h3
    rw [hempty h1 h2 h3]
    simp [readFiles]

/-- The directory "." of the demo environment resolves to the single file
`a.go`: `build.ImportDir` is called, then the analyzer, once. -/
theorem lintDir_invokes_analyzer_once_witness :
    envDemo.importDir "." = .ok ⟨".", ["a.go"], [], [], []⟩ ∧
      ∃ m : FileMap,
        (lintDir envDemo flagsDemo "." State.init).events =
          State.init.events ++ [Event.importDir ".", Event.analyzer flagsDemo.linter m] ∧
        analyzerCalls (lintDir envDemo flagsDemo "." State.init).events =
          analyzerCalls State.init.events ++ [m] :=
  ⟨rfl,
    (lintDir_invokes_analyzer_once envDemo flagsDemo "." ⟨".", ["a.go"], [], [], []⟩
      State.init rfl).elim (fun m hm => ⟨m, hm.1, hm.2.1⟩)⟩

end Golinter
